import Mathlib

/-!
Verification of the factor-algebra / variable-elimination core of the
graphical-models repository (pygmodels), via a shallow embedding of the
Python sources into Lean.

Conventions of the embedding:
- Python floats and ints are embedded as rationals.
- Python dicts are embedded as association lists updated in place by key.
- Python sets that the code iterates over are embedded as lists; a claim
  quantifying over a set quantifies over the list that carries its
  iteration order.
- Python exceptions are embedded as an explicit error type `PyErr`;
  fallible code returns `Except PyErr`.
-/

/-- Numeric values of the repository (Python ints/floats) as rationals. -/
abbrev Val := ℚ

/-- Assignment row: a set of (variable-id, value) pairs, embedded as a list.
Corresponds to the scope_product arguments throughout ftype.py. -/
abbrev Assignment := List (String × Val)

/-- Random variable as the factor core consumes it: an identifier and its
finite domain of outcome values (CatRandomVariable.values, which returns
input_data of the outcome-values key). -/
structure RVar where
  id : String
  values : List Val
deriving DecidableEq

/-- Error type embedding the Python exceptions the embedded code can raise,
together with the two typed errors named by the specification
(DegenerateFactorError, InconsistentTracebackError) which are needed to
state claims about them; the embedded code never produces those two. -/
inductive PyErr where
  /-- ValueError raised by PGModel.get_factor_product on an empty factor list. -/
  | emptyFactorSet : PyErr
  /-- ValueError raised by FactorAlgebra.sumout_vars on an empty variable set. -/
  | emptyEliminationSet : PyErr
  /-- ValueError raised by BaseFactor.__init__ on a negative domain value. -/
  | negativeFactorValue : PyErr
  /-- ValueError raised by CatRandomVariable.__init__ on a bad probability sum. -/
  | probabilitySum : PyErr
  /-- Python built-in ZeroDivisionError. -/
  | zeroDivision : PyErr
  /-- Python built-in KeyError (raised e.g. by set.pop on an empty set). -/
  | keyError : PyErr
  /-- DegenerateFactorError of the specification error taxonomy. -/
  | degenerateFactor : PyErr
  /-- InconsistentTracebackError of the specification error taxonomy. -/
  | inconsistentTraceback : PyErr
deriving DecidableEq

/-- Lookup in an embedded Python dict (association list). -/
def dictGet (d : List (String × α)) (k : String) : Option α :=
  (d.find? (fun p => p.1 = k)).map (·.2)

/-- Key membership in an embedded Python dict. -/
def dictHasKey (d : List (String × α)) (k : String) : Bool :=
  d.any (fun p => p.1 = k)

/-- Assignment to a key of an embedded Python dict: update the entry in
place when the key exists, append it otherwise. -/
def dictSet (d : List (String × α)) (k : String) (v : α) : List (String × α) :=
  if dictHasKey d k then d.map (fun p => if p.1 = k then (k, v) else p)
  else d ++ [(k, v)]

/-- Cartesian product of a list of domains, enumerated in the order of
itertools.product: the first domain varies slowest. -/
def cartesian : List (List α) → List (List α)
  | [] => [[]]
  | d :: ds => d.flatMap (fun x => (cartesian ds).map (fun rest => x :: rest))

/-- Factor data of ftype.py: an identifier, the scope variables, and the
potential function factor_fn. The cached partition value Z is recovered by
the function `Zval` below, which agrees with the value cached at
construction because factor_fn is pure. -/
structure Factor where
  id : String
  scope : List RVar
  fn : Assignment → Val

/-- Identifiers of the scope variables of a factor. -/
def Factor.scopeIds (f : Factor) : List String := f.scope.map (·.id)

/-- Per-variable branded domains of a scope, as in BaseFactor.vars_domain:
for each scope variable the list of (id, value) pairs from value_set. -/
def varsDomain (scope : List RVar) : List (List (String × Val)) :=
  scope.map (fun s => s.values.map (fun v => (s.id, v)))

/-- Rows of the factor's conditional probability table: the cartesian
product of the branded domains (scope_products in BaseFactor.__init__). -/
def Factor.rows (f : Factor) : List Assignment :=
  cartesian (varsDomain f.scope)

/-- Potential of a factor at a row, as in BaseFactor.phi: apply factor_fn. -/
def Factor.phi (f : Factor) (a : Assignment) : Val := f.fn a

/-- Partition value of a factor, as in BaseFactor.partition_value applied to
vars_domain: the sum of factor_fn over every row of the cartesian product. -/
def Factor.Zval (f : Factor) : Val :=
  (f.rows.map (fun sv => f.fn sv)).sum

/-- Constructor check of BaseFactor.__init__ (basefactor.py): raise a
ValueError when any scope variable's domain contains a negative value,
otherwise build the factor. -/
def BaseFactor.mk (gid : String) (scope_vars : List RVar)
    (factor_fn : Assignment → Val) : Except PyErr Factor :=
  if scope_vars.any (fun svar => svar.values.any (fun v => v < 0)) then
    .error .negativeFactorValue
  else
    .ok { id := gid, scope := scope_vars, fn := factor_fn }

/-- Normalized potential, as in BaseFactor.phi_normal: the bare Python
division phi(scope_product) / self.Z, which raises the built-in
ZeroDivisionError when the cached partition value Z is zero (there is no
explicit zero check in the source). -/
def Factor.phi_normal (f : Factor) (a : Assignment) : Except PyErr Val :=
  if f.Zval = 0 then .error .zeroDivision else .ok (f.phi a / f.Zval)

/-- Restriction of an assignment to a sub-scope given by variable ids
(the a|S operation of the specification, used by the factor product). -/
def restrict (a : Assignment) (ids : List String) : Assignment :=
  a.filter (fun p => ids.contains p.1)

/-- Modelled from the spec: FactorOps.cls_product (file factorops.py is not
under src/; only its callers are). Per section 4.2, Product(f, g) builds a
new factor with scope f.scope union g.scope and potential
phi(a) = product_fn(f.phi(a|f.scope), g.phi(a|g.scope)), and also returns
an auxiliary scalar obtained by applying the accumulator to the two
factors' own partition values (default: their product). -/
def cls_product (f other : Factor)
    (product_fn : Val → Val → Val := fun x y => x * y)
    (accumulator : Val → Val → Val := fun x y => x * y) : Factor × Val :=
  ({ id := "prod(" ++ f.id ++ "," ++ other.id ++ ")",
     scope := f.scope ++ other.scope.filter
       (fun v => ¬ f.scope.any (fun w => w.id = v.id)),
     fn := fun a =>
       product_fn (f.fn (restrict a f.scopeIds))
         (other.fn (restrict a other.scopeIds)) },
   accumulator f.Zval other.Zval)

/-- Product step used when folding cls_product with the default
product_fn and accumulator, as PGModel.get_factor_product does. -/
def prodStep (p g : Factor) : Factor := (cls_product p g).1

/-- Loop of PGModel.get_factor_product: prod starts as the first factor
and the pair (prod, val) is overwritten by cls_product at each of the
remaining factors; the returned val is the one from the last iteration. -/
def productLoop (p : Factor) : List Factor → Factor × Val
  | [] => (p, 1)
  | [g] => cls_product p g
  | g :: h :: rest => productLoop (prodStep p g) (h :: rest)

/-- PGModel.get_factor_product: raise a ValueError on an empty factor
list; return the sole factor with no auxiliary value (None) on a
singleton; otherwise fold cls_product over the list. -/
def get_factor_product (fs : List Factor) : Except PyErr (Factor × Option Val) :=
  match fs with
  | [] => .error .emptyFactorSet
  | [f] => .ok (f, none)
  | f :: g :: rest =>
    let pv := productLoop f (g :: rest)
    .ok (pv.1, some pv.2)

/-- Scope membership test used by PGModel.get_factor_product_var:
whether variable Z is in the scope of factor f (Python `Z in scope`,
where scope is a set of variable objects; variables are identified by
their unique ids). -/
def scopeContains (f : Factor) (Z : RVar) : Bool :=
  f.scope.any (fun v => v.id = Z.id)

/-- PGModel.get_factor_product_var: split fs into the factors whose scope
involves Z and the others (set membership in the Python source is by the
factors' unique identity, so the complement is exactly the scope-free
part), and multiply the first part. -/
def get_factor_product_var (fs : List Factor) (Z : RVar) :
    Except PyErr (Factor × List Factor × List Factor) := do
  let factors := fs.filter (fun f => scopeContains f Z)
  let other_factors := fs.filter (fun f => ¬ scopeContains f Z)
  let pv ← get_factor_product factors
  return (pv.1, factors, other_factors)

/-- PGModel.eliminate_variable_by: take the product of the factors
involving Z, apply the elimination strategy to remove Z from it, and
return the new working pool (the untouched factors united with the result),
the resulting factor, and the pre-elimination product. -/
def eliminate_variable_by (factors : List Factor) (Z : RVar)
    (elimination_strategy : Factor → RVar → Factor) :
    Except PyErr (List Factor × Factor × Factor) := do
  let (prod, _scope_factors, other_factors) ← get_factor_product_var factors Z
  let sum_factor := elimination_strategy prod Z
  return (other_factors ++ [sum_factor], sum_factor, prod)

/-- Modelled from the spec: FactorOps.cls_sumout_var / the core of
FactorFactorableOps.sumout_var (factorops.py is not under src/). Per
section 4.2, SumOutVar(f, Y) has scope f.scope minus Y and potential
phi(a) = the sum over y in domain(Y) of f.phi(a united with (Y,y)). -/
def cls_sumout_var (f : Factor) (Y : RVar) : Factor :=
  { id := "sumout(" ++ f.id ++ "," ++ Y.id ++ ")",
    scope := f.scope.filter (fun v => v.id ≠ Y.id),
    fn := fun a => (Y.values.map (fun y => f.fn (a ++ [(Y.id, y)]))).sum }

/-- Maximum of a list of rationals (empty list gives 0); used to model
Python max over the values of a finite domain. -/
def listMax : List Val → Val
  | [] => 0
  | x :: xs => xs.foldl max x

/-- Modelled from the spec: FactorOps.cls_maxout_var (factorops.py is not
under src/). Per section 4.2, MaxOutVar(f, Y) has scope f.scope minus Y
and potential phi(a) = the maximum over y in domain(Y) of
f.phi(a united with (Y,y)). -/
def cls_maxout_var (f : Factor) (Y : RVar) : Factor :=
  { id := "maxout(" ++ f.id ++ "," ++ Y.id ++ ")",
    scope := f.scope.filter (fun v => v.id ≠ Y.id),
    fn := fun a => listMax (Y.values.map (fun y => f.fn (a ++ [(Y.id, y)]))) }

/-- Modelled from the spec: FactorAnalyzer.cls_max_value (file
factoranalyzer.py is not under src/; only its caller traceback_map is).
Per section 4.4, it yields the maximizing assignment of the factor: the
row of the factor's domain with the greatest potential (ties resolved
deterministically, here by the first row in enumeration order). -/
def cls_max_value (f : Factor) : Assignment :=
  match f.rows with
  | [] => []
  | r :: rs => rs.foldl (fun best r2 => if f.phi r2 > f.phi best then r2 else best) r

/-- Body of one iteration of the loop of PGModel.traceback_map: compute
the maximizing assignment of the potential, keep the entries whose
variable is not yet in max_assignments, and pop one of them (Python
set.pop, which raises the built-in KeyError when the set is empty) into
the assignment dict. -/
def traceback_step (max_assignments : List (String × Val)) (f : Factor) :
    Except PyErr (List (String × Val)) :=
  let pmax := cls_max_value f
  let diff := pmax.filter (fun p => ¬ dictHasKey max_assignments p.1)
  match diff with
  | [] => .error .keyError
  | d :: _ => .ok (dictSet max_assignments d.1 d.2)

/-- Descending index loop of PGModel.traceback_map: with fuel n the loop
body runs at indices n-1, n-2, ..., 0 of the potentials list. -/
def tracebackGo (potentials : List Factor) :
    Nat → List (String × Val) → Except PyErr (List (String × Val))
  | 0, m => .ok m
  | j + 1, m => do
    let m2 ← traceback_step m (potentials.getD j { id := "", scope := [], fn := fun _ => 0 })
    tracebackGo potentials j m2

/-- PGModel.traceback_map: walk the recorded potentials from the last
index down to index 0 (for i in range(len(potentials)-1, -1, -1)),
fixing one newly determined variable per potential. The X_is parameter
is part of the Python signature but unused by the body. -/
def traceback_map (potentials : List Factor) (_X_is : List RVar) :
    Except PyErr (List (String × Val)) :=
  tracebackGo potentials potentials.length []

/-- Modelled from the spec: the core of FactorFactorableOps.sumout_var as
wrapped by FactorAlgebra.sumout_var (factorops.py is not under src/): per
section 4.2 it is SumOutVar, building a fresh factor and leaving its
arguments untouched. -/
def FactorAlgebra.sumout_var (f : Factor) (Y : RVar) : Factor :=
  cls_sumout_var f Y

/-- FactorAlgebra.sumout_vars (factoralg.py), embedded together with the
state of its Ys argument: the second component of the result is the
content of the caller's Ys set after the call. On an empty Ys it raises a
ValueError; on a singleton it executes v = Ys.pop(), which removes the
element from the caller's set, and sums v out; otherwise it folds
sumout_var over list(Ys), touching neither input. -/
def FactorAlgebra.sumout_vars (f : Factor) (Ys : List RVar) :
    (Except PyErr Factor) × List RVar :=
  match Ys with
  | [] => (.error .emptyEliminationSet, Ys)
  | [v] => (.ok (FactorAlgebra.sumout_var f v), [])
  | y :: rest => (.ok (rest.foldl FactorAlgebra.sumout_var (FactorAlgebra.sumout_var f y)), Ys)

/-- Modelled from the spec: FactorOps.cls_sumout_vars (factorops.py is not
under src/; only its caller conditional_prod_by_variable_elimination is).
Per section 4.2, SumOutVars(f, Ys) applies SumOutVar for each variable of
Ys in a deterministic order and fails on an empty Ys. -/
def cls_sumout_vars (f : Factor) (Ys : List RVar) : Except PyErr Factor :=
  match Ys with
  | [] => .error .emptyEliminationSet
  | y :: rest => .ok (rest.foldl cls_sumout_var (cls_sumout_var f y))

/-- Probability-sum guard of CatRandomVariable.__init__ (catrandomval.py):
when input_data has an outcome-values key, compute the sum of the marginal
distribution over the outcome values and raise a ValueError when that sum
is simultaneously greater than 1 and less than 0. -/
def catRandomVariable_init_check (outcome_values : Option (List Val))
    (marginal_distribution : Val → Val) : Except PyErr Unit :=
  match outcome_values with
  | none => .ok ()
  | some vs =>
    let psum := (vs.map marginal_distribution).sum
    if psum > 1 ∧ psum < 0 then .error .probabilitySum else .ok ()

/-- String representation of a factor, as in BaseFactor.__str__: it
concatenates the factor's unique identifier, the repr of the scope
variable table and the repr of the potential-function object. The two
repr fragments are not computable inside the embedding (they contain
Python object addresses) and are passed as parameters. Python hashes the
factor by hashing this string (BaseFactor.__hash__), so the string is the
hash key of the factor; distinct strings give distinct hashes. -/
def factorStr (f : Factor) (table_repr fn_repr : String) : String :=
  "Factor: " ++ f.id ++ "\n" ++ "Scope variables: " ++ table_repr
    ++ "Factor function: " ++ fn_repr

/-- Value equality of factors, as in BaseFactor.__eq__: compare the
variable domains, then compare phi on every row of the cartesian product
of the domains; any mismatch gives False. -/
def factorEqB (f n : Factor) : Bool :=
  let other_domain := varsDomain n.scope
  let this_domain := varsDomain f.scope
  if other_domain ≠ this_domain then false
  else (cartesian other_domain).all (fun dval => f.phi dval = n.phi dval)

/-- Insertion into a Python set of factors, keyed the way CPython does it:
a new element is stored unless the set already holds an element with the
same hash whose __eq__ with the new element is True. Elements are carried
together with their hash key (the __str__ string). -/
def pyFactorSetInsert (s : List (Factor × String)) (f : Factor)
    (key : String) : List (Factor × String) :=
  if s.any (fun p => p.2 = key && factorEqB p.1 f) then s else (f, key) :: s

/-- Undirected graph as the ordering heuristics consume it: the model's
vertex set (random variables) and edge set (pairs of vertex ids). -/
structure Graph where
  nodes : List RVar
  edges : List (String × String)
deriving DecidableEq

/-- Edge membership, in either orientation. -/
def Graph.hasEdge (g : Graph) (a b : String) : Bool :=
  g.edges.any (fun e => (e.1 = a ∧ e.2 = b) ∨ (e.1 = b ∧ e.2 = a))

/-- Modelled from the spec: BaseGraphNodeOps.neighbours_of (the graph
operation modules are not under src/; only their callers are). Per
section 6, the graph provider exposes neighbors(nodeId): the vertices
joined to the node by an edge. -/
def Graph.neighbours (g : Graph) (n : RVar) : List RVar :=
  g.nodes.filter (fun m => g.hasEdge n.id m.id)

/-- Modelled from the spec: BaseGraphAlgOps.added_edge_between_if_none
(the graph operation modules are not under src/). Per section 6 it is
addEdgeIfAbsent, and per the working-copy requirement of section 9 it
returns a graph with the edge added rather than mutating shared state,
which matches the rebinding idiom of its call site in
PGModel.order_by_greedy_metric. -/
def Graph.addedEdgeBetweenIfNone (g : Graph) (a b : String) : Graph :=
  if g.hasEdge a b then g else { g with edges := g.edges ++ [(a, b)] }

/-- Stable insertion used by `sortByKey`: the new element goes after every
element whose key is less than or equal to its own. -/
def insertByKey (key : α → ℤ) (x : α) : List α → List α
  | [] => [x]
  | y :: ys => if key x < key y then x :: y :: ys else y :: insertByKey key x ys

/-- Stable sort by an integer key, modelling Python's stable sorted(). -/
def sortByKey (key : α → ℤ) (l : List α) : List α :=
  l.foldl (fun acc x => insertByKey key x acc) []

/-- The min_unmarked_neighbours selector of pgmodel.py: order the nodes by
their neighbour count (Python sorts the pair list twice with the same key;
one stable sort yields the same list) and return the first node of the
ordered list that is not marked, or None when every node is marked. The
neighbour count nb_neighbours_of is modelled from the spec as the size of
the neighbour set. -/
def min_unmarked_neighbours (g : Graph) (nodes : List RVar)
    (marked : List (String × Bool)) : Option RVar :=
  let ordered := sortByKey (fun n => ((g.neighbours n).length : ℤ)) nodes
  ordered.find? (fun X => dictGet marked X.id = some false)

/-- Inner loop body of PGModel.order_by_max_cardinality, iterating over
one candidate node n: skip n when marked; otherwise count the neighbours
of n whose marked entry is False (the source tests
`marked[n_.id()] is False`, despite the variable naming that speaks of
marked neighbours) and update the running best (selected node, best
count) when the count strictly exceeds the best so far. The best count
starts as float("-inf"), embedded as `none`. -/
def mcInnerStep (g : Graph) (marked : List (String × Bool))
    (st : Option RVar × Option ℕ) (n : RVar) : Option RVar × Option ℕ :=
  if dictGet marked n.id = some true then st
  else
    let counter := ((g.neighbours n).filter
      (fun m => dictGet marked m.id = some false)).length
    match st.2 with
    | none => (some n, some counter)
    | some m => if counter > m then (some n, some counter) else st

/-- Outer loop body of PGModel.order_by_max_cardinality at iteration i.
After the inner for-loop, the Python loop variable n still holds the last
element of the iterated node collection (the `continue` path does not
change that), and it is that node — not the selected one — whose
cardinality and marked entries the source then assigns. -/
def mcOuterStep (g : Graph) (nodesList : List RVar)
    (st : List (String × Bool) × List (String × ℤ) × Option RVar × Option ℕ)
    (i : ℤ) :
    List (String × Bool) × List (String × ℤ) × Option RVar × Option ℕ :=
  let selnb := nodesList.foldl (mcInnerStep g st.1) (st.2.2.1, st.2.2.2)
  match nodesList.getLast? with
  | none => (st.1, st.2.1, selnb.1, selnb.2)
  | some n => (dictSet st.1 n.id true, dictSet st.2.1 n.id i, selnb.1, selnb.2)

/-- PGModel.order_by_max_cardinality: initialize every node as unmarked
with cardinality -1, run |nodes| iterations of the outer loop, and return
the cardinality dict. -/
def order_by_max_cardinality (g : Graph) (nodes : List RVar) :
    List (String × ℤ) :=
  let init_marked := nodes.map (fun n => (n.id, false))
  let init_cardinality := nodes.map (fun n => (n.id, (-1 : ℤ)))
  let final := (List.range nodes.length).foldl
    (fun st i => mcOuterStep g nodes st (i : ℤ))
    (init_marked, init_cardinality, none, none)
  final.2.1

/-- Inner for-loop of the fill-in phase of PGModel.order_by_greedy_metric:
for a fixed popped node n_x, walk the current neighbours of X and insert
an edge between n_x and each of them if absent, threading the updated
working graph. -/
def fillInner (g : Graph) (X n_x : RVar) : Graph :=
  (g.neighbours X).foldl (fun g2 n => g2.addedEdgeBetweenIfNone n_x.id n.id) g

/-- While-loop of the fill-in phase of PGModel.order_by_greedy_metric:
TEMP is the snapshot of X's neighbours taken before the loop; each pass
pops one node from it (Python set.pop, modelled as taking the head) and
runs the inner for-loop on the current working graph. -/
def fillWhile (X : RVar) : List RVar → Graph → Graph
  | [], g => g
  | n_x :: rest, g => fillWhile X rest (fillInner g X n_x)

/-- One iteration of PGModel.order_by_greedy_metric: select a node with
the pluggable selector; when one is found, record its rank, insert the
fill-in edges into the working graph, and mark it. -/
def greedyStep (s : Graph → List RVar → List (String × Bool) → Option RVar)
    (nodes : List RVar)
    (st : Graph × List (String × Bool) × List (String × ℤ)) (i : ℤ) :
    Graph × List (String × Bool) × List (String × ℤ) :=
  match s st.1 nodes st.2.1 with
  | none => st
  | some X =>
    let cardinality := dictSet st.2.2 X.id i
    let g2 := fillWhile X (st.1.neighbours X) st.1
    let marked := dictSet st.2.1 X.id true
    (g2, marked, cardinality)

/-- PGModel.order_by_greedy_metric together with the final value of its
working graph: the method-local variable self is rebound to the graphs
returned by addedEdgeBetweenIfNone, so the fill-in edges accumulate in
this working copy; the method returns only the cardinality dict and the
working copy dies with the local variable. -/
def order_by_greedy_metric_wg (g : Graph) (nodes : List RVar)
    (s : Graph → List RVar → List (String × Bool) → Option RVar) :
    List (String × ℤ) × Graph :=
  let init_marked := nodes.map (fun n => (n.id, false))
  let init_cardinality := nodes.map (fun n => (n.id, (-1 : ℤ)))
  let final := (List.range nodes.length).foldl
    (fun st i => greedyStep s nodes st (i : ℤ))
    (g, init_marked, init_cardinality)
  (final.2.2, final.1)

/-- Return value of PGModel.order_by_greedy_metric: the cardinality dict
only. -/
def order_by_greedy_metric (g : Graph) (nodes : List RVar)
    (s : Graph → List RVar → List (String × Bool) → Option RVar) :
    List (String × ℤ) :=
  (order_by_greedy_metric_wg g nodes s).1

/-- Effect of a call to PGModel.order_by_greedy_metric as its caller sees
it: the value is the cardinality dict and the graph the caller's model
refers to afterwards. Assignments to the method-local name self do not
reach the caller's binding and addedEdgeBetweenIfNone allocates fresh
graphs, so the caller's graph is the one it passed in. -/
def order_by_greedy_metric_call (g : Graph) (nodes : List RVar)
    (s : Graph → List RVar → List (String × Bool) → Option RVar) :
    List (String × ℤ) × Graph :=
  (order_by_greedy_metric g nodes s, g)

/-- Default random variable used to model a Python dict lookup V[id] whose
key is assumed present at the call sites of the source. -/
def junkRVar : RVar := { id := "", values := [] }

/-- PGModel.sum_prod_var_eliminate: eliminate Z from the working pool with
the sum-out strategy and keep the first component of the triple. -/
def sum_prod_var_eliminate (factors : List Factor) (Z : RVar) :
    Except PyErr (List Factor) := do
  let res ← eliminate_variable_by factors Z (fun x y => cls_sumout_var x y)
  return res.1

/-- PGModel.sum_product_elimination: eliminate each variable of Zs in
order, then fold the surviving pool into a single factor. -/
def sum_product_elimination (factors : List Factor) (Zs : List RVar) :
    Except PyErr Factor := do
  let fs ← Zs.foldlM sum_prod_var_eliminate factors
  let pv ← get_factor_product fs
  return pv.1

/-- PGModel.conditional_prod_by_variable_elimination: compute the greedy
elimination ordering over Zs, walk the ranked variables in ascending rank
(Python's stable sorted over the dict items), run sum-product elimination,
and sum the query variables out of the surviving factor. The V dict maps
vertex ids to the model's vertices. -/
def conditional_prod_by_variable_elimination (g : Graph)
    (queries : List RVar) (Zs : List RVar) (factors : List Factor) :
    Except PyErr (Factor × Factor) := do
  let cardinality := order_by_greedy_metric g Zs min_unmarked_neighbours
  let ordering := (sortByKey (fun p => p.2) cardinality).map
    (fun p => (g.nodes.find? (fun v => v.id = p.1)).getD junkRVar)
  let phi ← sum_product_elimination factors ordering
  let alpha ← cls_sumout_vars phi queries
  return (phi, alpha)

/-- PGModel.conditional_prod_by_variable_elimination together with the
state of the model graph the caller sees after the call: the only
graph-touching step is the internal order_by_greedy_metric call, whose
effect on the caller's model is captured by order_by_greedy_metric_call. -/
def conditional_prod_by_variable_elimination_state (g : Graph)
    (queries : List RVar) (Zs : List RVar) (factors : List Factor) :
    Except PyErr (Factor × Factor) × Graph :=
  let c := order_by_greedy_metric_call g Zs min_unmarked_neighbours
  let result : Except PyErr (Factor × Factor) := do
    let ordering := (sortByKey (fun p => p.2) c.1).map
      (fun p => (c.2.nodes.find? (fun v => v.id = p.1)).getD junkRVar)
    let phi ← sum_product_elimination factors ordering
    let alpha ← cls_sumout_vars phi queries
    return (phi, alpha)
  (result, c.2)

/-- C9: the probability-sum guard of CatRandomVariable.__init__ tests
psum > 1 and psum < 0 conjunctively, which no rational satisfies (every
rational is at most 1 or at least 0), so constructing a CatRandomVariable
never raises the probability-sum ValueError, for every outcome-values
list and every marginal distribution — including distributions whose
probabilities sum to more than 1 or to a negative number. -/
theorem claim_C9_guard_unsatisfiable :
    (∀ (ov : Option (List Val)) (dist : Val → Val),
      catRandomVariable_init_check ov dist = .ok ()) ∧
    (∀ q : Val, q ≤ 1 ∨ 0 ≤ q) := by
  constructor
  · intro ov dist
    cases ov with
    | none => rfl
    | some vs =>
      show (if (vs.map dist).sum > 1 ∧ (vs.map dist).sum < 0
        then (.error .probabilitySum : Except PyErr Unit) else .ok ()) = .ok ()
      rw [if_neg]
      rintro ⟨h1, h2⟩
      linarith
  · intro q
    rcases le_or_lt q 1 with h | h
    · exact Or.inl h
    · exact Or.inr (by linarith)

/-- C4 counterexample: a factor whose potentials are all zero has cached
partition value Z = 0, and phi_normal on it fails with the built-in
ZeroDivisionError of the bare Python division, which is not the typed
DegenerateFactorError the claim requires. -/
theorem claim_C4_counterexample :
    Factor.phi_normal
      { id := "fz", scope := [{ id := "A", values := [0, 1] }], fn := fun _ => 0 }
      [("A", 0)] = .error PyErr.zeroDivision ∧
    PyErr.zeroDivision ≠ PyErr.degenerateFactor := by
  constructor
  · have hz : Factor.Zval
        { id := "fz", scope := [{ id := "A", values := [0, 1] }], fn := fun _ => 0 } = 0 := by
      norm_num [Factor.Zval, Factor.rows, varsDomain, cartesian]
    unfold Factor.phi_normal
    rw [if_pos hz]
  · decide

/-- C4 amended: for every factor f with cached partition value Z and every
assignment a, phi_normal(a) returns phi(a) / Z when Z is nonzero, and when
Z == 0 the call fails with the built-in ZeroDivisionError (the source
divides without any zero check), not with a typed DegenerateFactorError. -/
theorem claim_C4_amended (f : Factor) (a : Assignment) :
    (f.Zval = 0 → f.phi_normal a = .error PyErr.zeroDivision) ∧
    (f.Zval ≠ 0 → f.phi_normal a = .ok (f.phi a / f.Zval)) := by
  unfold Factor.phi_normal
  constructor
  · intro h; rw [if_pos h]
  · intro h; rw [if_neg h]

/-- C4 witness: the amended statement evaluated at a zero-partition factor
and at a factor with partition value 2. -/
theorem claim_C4_witness :
    Factor.phi_normal
      { id := "fz", scope := [{ id := "A", values := [0, 1] }], fn := fun _ => 0 }
      [("A", 0)] = .error PyErr.zeroDivision ∧
    Factor.phi_normal
      { id := "f1", scope := [{ id := "A", values := [0, 1] }], fn := fun _ => 1 }
      [("A", 0)]
      = .ok (Factor.phi { id := "f1", scope := [{ id := "A", values := [0, 1] }], fn := fun _ => 1 } [("A", 0)]
          / Factor.Zval { id := "f1", scope := [{ id := "A", values := [0, 1] }], fn := fun _ => 1 }) :=
  ⟨(claim_C4_amended _ _).1
      (by norm_num [Factor.Zval, Factor.rows, varsDomain, cartesian]),
    (claim_C4_amended _ _).2
      (by norm_num [Factor.Zval, Factor.rows, varsDomain, cartesian])⟩

/-- C7 counterexample: a factor over a variable with the non-negative
domain [0, 1] but with the constant potential function -1 is accepted by
the BaseFactor constructor (the constructor only inspects domain values),
yet its phi is negative on a row of the cartesian product of its scope
domains. -/
theorem claim_C7_counterexample :
    BaseFactor.mk "neg" [{ id := "A", values := [0, 1] }] (fun _ => -1)
      = .ok { id := "neg", scope := [{ id := "A", values := [0, 1] }], fn := fun _ => -1 } ∧
    [("A", 0)] ∈ Factor.rows
      { id := "neg", scope := [{ id := "A", values := [0, 1] }], fn := fun _ => -1 } ∧
    Factor.phi
      { id := "neg", scope := [{ id := "A", values := [0, 1] }], fn := fun _ => -1 }
      [("A", 0)] < 0 := by
  refine ⟨rfl, ?_, ?_⟩
  · show [("A", 0)] ∈ cartesian (varsDomain [{ id := "A", values := [0, 1] }])
    simp [varsDomain, cartesian]
  · show (-1 : Val) < 0
    norm_num

/-- C7 amended: construction succeeds exactly when no scope variable's
domain contains a negative value — the constructor guards the domains of
the scope variables, not the outputs of the potential function, so a
successfully constructed factor has non-negative domain values but its
phi may still be negative. -/
theorem claim_C7_amended (gid : String) (scope : List RVar)
    (fn : Assignment → Val) :
    (∃ F, BaseFactor.mk gid scope fn = .ok F) ↔
      ∀ sv ∈ scope, ∀ v ∈ sv.values, 0 ≤ v := by
  unfold BaseFactor.mk
  by_cases h : scope.any (fun svar => svar.values.any (fun v => v < 0))
  · rw [if_pos h]
    simp only [List.any_eq_true, decide_eq_true_eq] at h
    obtain ⟨sv, hsv, v, hv, hneg⟩ := h
    constructor
    · rintro ⟨F, hF⟩
      exact absurd hF (by simp)
    · intro hall
      exact absurd (hall sv hsv v hv) (by linarith)
  · rw [if_neg h]
    constructor
    · intro _ sv hsv v hv
      by_contra hneg
      push_neg at hneg
      refine h ?_
      rw [List.any_eq_true]
      exact ⟨sv, hsv, by rw [List.any_eq_true]; exact ⟨v, hv, decide_eq_true hneg⟩⟩
    · intro _
      exact ⟨{ id := gid, scope := scope, fn := fn }, rfl⟩

/-- C7 witness: the amended statement evaluated at a scope with the
domain [0, 1]. -/
theorem claim_C7_witness :
    (∃ F, BaseFactor.mk "w" [{ id := "A", values := [0, 1] }] (fun _ => 1) = .ok F) ↔
      ∀ sv ∈ [({ id := "A", values := [0, 1] } : RVar)], ∀ v ∈ sv.values, 0 ≤ v :=
  claim_C7_amended "w" [{ id := "A", values := [0, 1] }] (fun _ => 1)

/-- C5 counterexample: calling FactorAlgebra.sumout_vars with a singleton
variable set executes v = Ys.pop(), which removes the element from the
caller's set: afterwards Ys is empty, not equal to its pre-call content. -/
theorem claim_C5_counterexample :
    (FactorAlgebra.sumout_vars
      { id := "f", scope := [{ id := "A", values := [0, 1] }], fn := fun _ => 1 }
      [{ id := "A", values := [0, 1] }]).2 = [] ∧
    ([] : List RVar) ≠ [{ id := "A", values := [0, 1] }] := by
  constructor
  · rfl
  · simp

/-- C5 amended: FactorAlgebra.sumout_vars never mutates the factor f (every
branch builds fresh factors), and it leaves Ys unchanged — except when Ys
is a singleton, in which case the call pops Ys's sole element, leaving the
caller's Ys empty. -/
theorem claim_C5_amended (f : Factor) (Ys : List RVar) :
    (FactorAlgebra.sumout_vars f Ys).2
      = if Ys.length = 1 then [] else Ys := by
  match Ys with
  | [] => rfl
  | [y] => rfl
  | y :: z :: rest =>
    rw [if_neg (by simp)]
    rfl

/-- C10: two factors with the same scope, the same variable domains and
the same potential function everywhere, but distinct unique identifiers,
are equal under BaseFactor.__eq__, yet their __str__ strings — from which
BaseFactor.__hash__ is derived — differ, so their hashes differ; a Python
set keyed by that hash therefore stores both value-equal factors at once. -/
theorem claim_C10_eq_without_hash_eq :
    factorEqB
      { id := "f1", scope := [{ id := "A", values := [0, 1] }], fn := fun _ => 1 }
      { id := "f2", scope := [{ id := "A", values := [0, 1] }], fn := fun _ => 1 } = true ∧
    factorStr
        { id := "f1", scope := [{ id := "A", values := [0, 1] }], fn := fun _ => 1 }
        "tbl" "fnrepr"
      ≠ factorStr
        { id := "f2", scope := [{ id := "A", values := [0, 1] }], fn := fun _ => 1 }
        "tbl" "fnrepr" ∧
    (pyFactorSetInsert
      (pyFactorSetInsert []
        { id := "f1", scope := [{ id := "A", values := [0, 1] }], fn := fun _ => 1 }
        (factorStr { id := "f1", scope := [{ id := "A", values := [0, 1] }], fn := fun _ => 1 } "tbl" "fnrepr"))
      { id := "f2", scope := [{ id := "A", values := [0, 1] }], fn := fun _ => 1 }
      (factorStr { id := "f2", scope := [{ id := "A", values := [0, 1] }], fn := fun _ => 1 } "tbl" "fnrepr")).length
      = 2 := by
  refine ⟨?_, ?_, ?_⟩
  · rfl
  · decide
  · rfl

/-- C1 evaluation at the failing input: on a graph with the two
disconnected nodes a and b, order_by_max_cardinality leaves a at the
initial rank -1 and gives b (the last node of each iteration of the
Python for-loop, which is the node the source actually ranks and marks)
the rank 1: the ranks are neither distinct per node nor the set {0, 1},
contradicting the claimed Koller–Friedman maximum-cardinality search,
because the source marks and ranks the loop variable n instead of the
selected node. -/
theorem claim_C1_failing_input :
    order_by_max_cardinality
      { nodes := [{ id := "a", values := [0, 1] }, { id := "b", values := [0, 1] }],
        edges := [] }
      [{ id := "a", values := [0, 1] }, { id := "b", values := [0, 1] }]
      = [("a", -1), ("b", 1)] := by
  rfl

/-- Helper: the factor built by the get_factor_product loop is the left
fold of the pairwise product over the remaining factors. -/
theorem productLoop_fst (gs : List Factor) :
    ∀ p : Factor, (productLoop p gs).1 = gs.foldl prodStep p := by
  induction gs with
  | nil => intro p; rfl
  | cons g rest ih =>
    intro p
    cases rest with
    | nil => rfl
    | cons h t =>
      show (productLoop (prodStep p g) (h :: t)).1 = (h :: t).foldl prodStep (prodStep p g)
      exact ih (prodStep p g)

/-- C6: get_factor_product fails with the dedicated empty-factor-set
ValueError on zero factors, returns the sole factor itself paired with
None on exactly one factor, and on two or more factors returns the
pairwise left fold of cls_product over the list together with the
auxiliary scalar of the final product step. -/
theorem claim_C6_get_factor_product_cases :
    (get_factor_product [] = .error PyErr.emptyFactorSet) ∧
    (∀ f : Factor, get_factor_product [f] = .ok (f, none)) ∧
    (∀ (f g : Factor) (rest : List Factor),
      get_factor_product (f :: g :: rest)
        = .ok ((productLoop f (g :: rest)).1, some (productLoop f (g :: rest)).2) ∧
      (productLoop f (g :: rest)).1 = (g :: rest).foldl prodStep f) := by
  refine ⟨rfl, fun f => rfl, fun f g rest => ⟨rfl, productLoop_fst (g :: rest) f⟩⟩

/-- Helper: the descending index loop of traceback_map with fuel n equals
the monadic left fold of the step over the reversed first n potentials. -/
theorem tracebackGo_eq_foldlM (potentials : List Factor) :
    ∀ (n : ℕ), n ≤ potentials.length → ∀ m,
      tracebackGo potentials n m
        = ((potentials.take n).reverse).foldlM traceback_step m := by
  intro n
  induction n with
  | zero => intro _ m; rfl
  | succ k ih =>
    intro hk m
    have hklt : k < potentials.length := Nat.lt_of_succ_le hk
    have hget : potentials.getD k { id := "", scope := [], fn := fun _ => 0 }
        = potentials[k] := List.getD_eq_getElem potentials _ hklt
    have htake : (potentials.take (k + 1)).reverse
        = potentials[k] :: (potentials.take k).reverse := by
      rw [List.take_succ, List.getElem?_eq_getElem hklt]
      simp
    rw [htake, List.foldlM_cons]
    show (traceback_step m (potentials.getD k _) >>= tracebackGo potentials k)
      = _
    rw [hget]
    cases traceback_step m potentials[k] with
    | error e => rfl
    | ok m2 =>
      show tracebackGo potentials k m2 = _
      exact ih (Nat.le_of_lt hklt) m2

/-- C3 counterexample: with two recorded potentials over the same single
variable A, the second-processed potential's maximizer only mentions the
already fixed variable A, so diff is empty and diff.pop() raises the
built-in KeyError — an untyped Python exception, not the typed
InconsistentTracebackError the claim requires (no such error exists in
the source). -/
theorem claim_C3_counterexample :
    traceback_map
      [{ id := "p1", scope := [{ id := "A", values := [0, 1] }], fn := fun _ => 1 },
        { id := "p2", scope := [{ id := "A", values := [0, 1] }], fn := fun _ => 1 }]
      [{ id := "A", values := [0, 1] }]
      = .error PyErr.keyError ∧
    PyErr.keyError ≠ PyErr.inconsistentTraceback := by
  exact ⟨rfl, by decide⟩

/-- C3 amended: traceback_map walks the recorded potentials from
last-eliminated to first-eliminated (it equals the fold of the step
function over the reversed list), each step fixes exactly one newly
determined variable from the potential's maximizing assignment, and when
the maximizer determines no variable not already fixed the step fails
with the built-in KeyError of Python's set.pop on an empty set — not
with a typed InconsistentTracebackError. -/
theorem claim_C3_amended :
    (∀ (potentials : List Factor) (Xis : List RVar),
      traceback_map potentials Xis
        = (potentials.reverse).foldlM traceback_step []) ∧
    (∀ (m : List (String × Val)) (f : Factor),
      traceback_step m f = .error PyErr.keyError ↔
        (cls_max_value f).filter (fun p => ¬ dictHasKey m p.1) = []) ∧
    (∀ (m : List (String × Val)) (f : Factor) (d : String × Val)
        (ds : List (String × Val)),
      (cls_max_value f).filter (fun p => ¬ dictHasKey m p.1) = d :: ds →
        traceback_step m f = .ok (dictSet m d.1 d.2)) := by
  refine ⟨?_, ?_, ?_⟩
  · intro potentials Xis
    unfold traceback_map
    rw [tracebackGo_eq_foldlM potentials potentials.length (Nat.le_refl _) [],
      List.take_length]
  · intro m f
    simp only [traceback_step]
    cases hd : (cls_max_value f).filter (fun p => ¬ dictHasKey m p.1) with
    | nil => simp
    | cons d ds => simp
  · intro m f d ds hd
    simp only [traceback_step, hd]

/-- Helper: restricting to s after restricting to a superset u of s is the
same as restricting to s directly. -/
theorem restrict_restrict (a : Assignment) (s u : List String)
    (h : ∀ x, s.contains x = true → u.contains x = true) :
    restrict (restrict a u) s = restrict a s := by
  unfold restrict
  rw [List.filter_filter]
  apply List.filter_congr
  intro p _
  cases hc : s.contains p.1 with
  | false => simp [hc]
  | true => rw [h p.1 hc, Bool.and_self]

/-- Helper: restricting an assignment whose keys all lie in ids is the
identity. -/
theorem restrict_keys_eq_self (a : Assignment) (ids : List String)
    (h : ∀ q ∈ a, ids.contains q.1 = true) : restrict a ids = a :=
  List.filter_eq_self.mpr h

/-- Helper: every scope id of the left operand survives into the scope of
the pairwise product. -/
theorem scopeIds_prodStep_left (p g : Factor) :
    ∀ x, p.scopeIds.contains x = true →
      (prodStep p g).scopeIds.contains x = true := by
  intro x hx
  have hmem : x ∈ p.scopeIds := by simpa using hx
  have hres : x ∈ (prodStep p g).scopeIds := by
    show x ∈ (p.scope ++ g.scope.filter
      (fun v => ¬ p.scope.any (fun w => w.id = v.id))).map (·.id)
    rw [List.map_append]
    exact List.mem_append_left _ hmem
  simpa using hres

/-- Helper: every scope id of the right operand survives into the scope of
the pairwise product, either through the left scope (when a left variable
carries the same id) or through the filtered right scope. -/
theorem scopeIds_prodStep_right (p g : Factor) :
    ∀ x, g.scopeIds.contains x = true →
      (prodStep p g).scopeIds.contains x = true := by
  intro x hx
  have hmem : x ∈ g.scopeIds := by simpa using hx
  obtain ⟨v, hv, rfl⟩ := List.mem_map.mp hmem
  by_cases hp : p.scope.any (fun w => w.id = v.id) = true
  · simp only [List.any_eq_true, decide_eq_true_eq] at hp
    obtain ⟨w, hw, hwid⟩ := hp
    have hin : v.id ∈ p.scopeIds := List.mem_map.mpr ⟨w, hw, hwid⟩
    have hres : v.id ∈ (prodStep p g).scopeIds := by
      show v.id ∈ (p.scope ++ g.scope.filter
        (fun v2 => ¬ p.scope.any (fun w2 => w2.id = v2.id))).map (·.id)
      rw [List.map_append]
      exact List.mem_append_left _ hin
    simpa using hres
  · have hvfilter : v ∈ g.scope.filter
        (fun v2 => ¬ p.scope.any (fun w2 => w2.id = v2.id)) := by
      rw [List.mem_filter]
      refine ⟨hv, ?_⟩
      simpa using hp
    have hres : v.id ∈ (prodStep p g).scopeIds := by
      show v.id ∈ (p.scope ++ g.scope.filter
        (fun v2 => ¬ p.scope.any (fun w2 => w2.id = v2.id))).map (·.id)
      rw [List.map_append]
      exact List.mem_append_right _ (List.mem_map.mpr ⟨v, hvfilter, rfl⟩)
    simpa using hres

/-- Helper: the potential of the left fold of pairwise products, at an
assignment whose keys lie in the folded scope, is the product of each
multiplicand's potential at the assignment restricted to its own scope. -/
theorem phi_foldl_prodStep (gs : List Factor) :
    ∀ (p : Factor) (a : Assignment),
      (∀ q ∈ a, ((gs.foldl prodStep p).scopeIds).contains q.1 = true) →
      (gs.foldl prodStep p).phi a
        = p.phi (restrict a p.scopeIds)
          * (gs.map (fun g => g.phi (restrict a g.scopeIds))).prod := by
  induction gs with
  | nil =>
    intro p a ha
    have ha2 : ∀ q ∈ a, (p.scopeIds).contains q.1 = true := ha
    show p.phi a = p.phi (restrict a p.scopeIds) * (([] : List Factor).map _).prod
    rw [List.map_nil, List.prod_nil, mul_one,
      restrict_keys_eq_self a _ ha2]
  | cons g t ih =>
    intro p a ha
    have hstep := ih (prodStep p g) a ha
    have hphi : (prodStep p g).phi (restrict a (prodStep p g).scopeIds)
        = p.phi (restrict a p.scopeIds) * g.phi (restrict a g.scopeIds) := by
      show p.fn (restrict (restrict a (prodStep p g).scopeIds) p.scopeIds)
          * g.fn (restrict (restrict a (prodStep p g).scopeIds) g.scopeIds)
        = p.fn (restrict a p.scopeIds) * g.fn (restrict a g.scopeIds)
      rw [restrict_restrict a _ _ (scopeIds_prodStep_left p g),
        restrict_restrict a _ _ (scopeIds_prodStep_right p g)]
    show (t.foldl prodStep (prodStep p g)).phi a = _
    rw [hstep, hphi, List.map_cons, List.prod_cons, mul_assoc]

/-- Specification of EliminateVariable as the claim states it, for a given
factor pool, elimination variable and strategy: the returned triple is
(pool, tau, pi) with pi the product of exactly the factors whose scope
contains Z (its potential at any assignment over its scope is the product
of their potentials at the restrictions of that assignment), tau the
strategy applied to pi, and pool the scope-free factors passed through
unchanged together with tau. -/
def eliminateVariableSpec (fs : List Factor) (Z : RVar)
    (strategy : Factor → RVar → Factor) : Prop :=
  ∃ (pi : Factor) (v : Option Val),
    get_factor_product (fs.filter (fun f => scopeContains f Z)) = .ok (pi, v) ∧
    eliminate_variable_by fs Z strategy
      = .ok ((fs.filter (fun f => ¬ scopeContains f Z)) ++ [strategy pi Z],
          strategy pi Z, pi) ∧
    ∀ a : Assignment, (∀ q ∈ a, (pi.scopeIds).contains q.1 = true) →
      pi.phi a = ((fs.filter (fun f => scopeContains f Z)).map
        (fun f => f.phi (restrict a f.scopeIds))).prod

/-- C2 counterexample: on a factor set in which no factor's scope contains
the elimination variable, eliminate_variable_by does not return a triple:
the internal product of the empty scope partition raises the
empty-factor-set ValueError. -/
theorem claim_C2_counterexample :
    eliminate_variable_by
      [{ id := "fb", scope := [{ id := "B", values := [0, 1] }], fn := fun _ => 1 }]
      { id := "A", values := [0, 1] }
      (fun x y => cls_sumout_var x y)
      = .error PyErr.emptyFactorSet := by
  rfl

/-- C2 amended: for every factor set containing at least one factor whose
scope includes Z, and either elimination strategy, eliminate_variable_by
returns the triple (pool, tau, pi) the claim describes: pi multiplies
exactly the factors whose scope contains Z, tau is the strategy applied
to pi, and pool is the unchanged scope-free factors united with tau. -/
theorem claim_C2_amended (fs : List Factor) (Z : RVar)
    (strategy : Factor → RVar → Factor)
    (h : fs.filter (fun f => scopeContains f Z) ≠ []) :
    eliminateVariableSpec fs Z strategy := by
  unfold eliminateVariableSpec
  cases hzs : fs.filter (fun f => scopeContains f Z) with
  | nil => exact absurd hzs h
  | cons z rest =>
    cases rest with
    | nil =>
      refine ⟨z, none, ?_, ?_, ?_⟩
      · rfl
      · unfold eliminate_variable_by get_factor_product_var
        rw [hzs]
        rfl
      · intro a ha
        rw [List.map_cons, List.map_nil, List.prod_cons, List.prod_nil,
          mul_one, restrict_keys_eq_self a _ ha]
    | cons z2 t =>
      refine ⟨(productLoop z (z2 :: t)).1, some (productLoop z (z2 :: t)).2,
        ?_, ?_, ?_⟩
      · rfl
      · unfold eliminate_variable_by get_factor_product_var
        rw [hzs]
        rfl
      · intro a ha
        have hfold := productLoop_fst (z2 :: t) z
        rw [hfold] at ha
        rw [hfold, phi_foldl_prodStep (z2 :: t) z a ha]
        simp [List.prod_cons]

/-- C2 witness: the amended statement evaluated at a singleton factor set
whose sole factor has the elimination variable in scope, with the sum-out
strategy. -/
theorem claim_C2_witness :
    eliminateVariableSpec
      [{ id := "fw", scope := [{ id := "A", values := [0, 1] }], fn := fun _ => 1 }]
      { id := "A", values := [0, 1] }
      (fun x y => cls_sumout_var x y) :=
  claim_C2_amended _ _ _ (by
    intro hcon
    exact List.noConfusion hcon)

/-- C8: computing the greedy elimination ordering never changes the model
graph its caller holds: the method returns only the cardinality dict, and
the conditional-probability entry point that invokes it internally leaves
the model's node and edge sets — and its own result — exactly as if the
model were read-only. The fill-in edges do exist, but only in the
method-local working copy of the adjacency structure, which can differ
from the canonical graph (third conjunct: on the chain a–b–c the working
copy ends with an extra edge) and is discarded on return. -/
theorem claim_C8_greedy_ordering_frame :
    (∀ (g : Graph) (queries Zs : List RVar) (factors : List Factor),
      (conditional_prod_by_variable_elimination_state g queries Zs factors).2 = g ∧
      (conditional_prod_by_variable_elimination_state g queries Zs factors).1
        = conditional_prod_by_variable_elimination g queries Zs factors) ∧
    (∀ (g : Graph) (nodes : List RVar)
        (s : Graph → List RVar → List (String × Bool) → Option RVar),
      order_by_greedy_metric_call g nodes s
        = (order_by_greedy_metric g nodes s, g)) ∧
    (order_by_greedy_metric_wg
        { nodes := [{ id := "a", values := [0, 1] }, { id := "b", values := [0, 1] },
            { id := "c", values := [0, 1] }],
          edges := [("a", "b"), ("b", "c")] }
        [{ id := "a", values := [0, 1] }, { id := "b", values := [0, 1] },
          { id := "c", values := [0, 1] }]
        min_unmarked_neighbours).2.edges
      ≠ [("a", "b"), ("b", "c")] := by
  refine ⟨fun g queries Zs factors => ⟨rfl, rfl⟩, fun g nodes s => rfl, ?_⟩
  decide
